import Mathlib

/-!
Verification of the p2prummikub host-authoritative game core.

The data model and the host/client handlers are shallowly embedded from
`src/types.ts` and `src/App.tsx`.  The repository's `utils/gameLogic` module
(createDeck, isValidSet, calculateSetPoints, sortTileSet, aiPlayTurn) is not
present under `src/`; those definitions are modelled from the specification
(sections 4.1, 4.2, 4.3) and are marked as such in their doc comments.
-/

namespace Rummikub

/-- Tile colors, from `types.ts` (`TileColor`). -/
inductive TileColor where
  | Red | Blue | Orange | Black | Joker
deriving DecidableEq, BEq, Inhabited

/-- A tile, from `types.ts` (`Tile`); the string `id` is modelled as a `Nat`
(ids are only compared for equality). -/
structure Tile where
  id : Nat
  number : Nat
  color : TileColor
  isJoker : Bool
deriving DecidableEq, BEq, Inhabited

/-- A candidate or committed set of tiles, from `types.ts` (`TileSet`). -/
abbrev TileSet := List Tile

/-- The role field of `GameState` in `types.ts`. -/
inductive Role where
  | host | client | single
deriving DecidableEq, BEq, Inhabited

/-- The canonical game state, from `types.ts` (`GameState`). -/
structure GameState where
  board : List TileSet
  playerHand : List Tile
  aiHands : List (List Tile)
  pool : List Tile
  currentPlayerIndex : Nat
  hasMeld : List Bool
  winner : Option Nat
  message : String
  isMultiplayer : Bool
  playerRole : Role
  myPlayerIndex : Nat
  gameStarted : Bool
  humanPlayers : List Nat
deriving DecidableEq, Inhabited

/-- Wire message types, from `types.ts` (`NetworkMessage.type`). -/
inductive MsgType where
  | updateState | actionMove | actionDraw | actionEndTurn | startGame
deriving DecidableEq, BEq, Inhabited

/-- The payload of an `ACTION_MOVE` message (`{ board, hand, hasMeld }` in
`App.tsx`). -/
structure MovePayload where
  board : List TileSet
  hand : List Tile
  hasMeld : Bool
deriving DecidableEq, Inhabited

/-- A client-to-host wire message, from `types.ts` (`NetworkMessage`); the
`payload : any` field is modelled as an optional `MovePayload` (it is `null`
for draw and end-turn intents). -/
structure NetworkMessage where
  type : MsgType
  payload : Option MovePayload
  fromIndex : Nat
deriving DecidableEq, Inhabited

/-! ## Spec-modelled game logic (`utils/gameLogic`, absent from `src/`) -/

/-- Canonical rank of a color, used for the deterministic sort key
(number, color) of spec section 4.2. -/
def colorRank : TileColor → Nat
  | .Red => 0 | .Blue => 1 | .Orange => 2 | .Black => 3 | .Joker => 4

/-- Modelled from the spec: section 4.1 deck construction (`createDeck` is in
the missing `utils/gameLogic`).  The 106-tile deck: two copies of 4 colors by
13 numbers plus 2 Jokers, each with a distinct stable id.  The spec's unbiased
shuffle is modelled by letting theorems quantify over an arbitrary deck; this
constant is the unshuffled base ordering used for concrete evaluation. -/
def createDeckBase : List Tile :=
  ((List.range 2).flatMap (fun copy =>
    ([TileColor.Red, TileColor.Blue, TileColor.Orange, TileColor.Black]).flatMap
      (fun c => (List.range 13).map (fun k =>
        { id := copy * 52 + colorRank c * 13 + k
          number := k + 1
          color := c
          isJoker := false }))))
  ++ [{ id := 104, number := 0, color := .Joker, isJoker := true },
      { id := 105, number := 0, color := .Joker, isJoker := true }]

/-- The non-Joker tiles of a candidate set (spec section 4.2 separates Jokers
from non-Jokers before checking shape). -/
def nonJokers (ts : List Tile) : List Tile := ts.filter (fun t => !t.isJoker)

/-- True when all tiles share one color. -/
def allSameColor : List Tile → Bool
  | [] => true
  | t :: ts => ts.all (fun u => u.color == t.color)

/-- True when all tiles share one number. -/
def allSameNumber : List Tile → Bool
  | [] => true
  | t :: ts => ts.all (fun u => u.number == t.number)

/-- True when the list has no duplicate entries. -/
def nodupNums : List Nat → Bool
  | [] => true
  | n :: ns => (!ns.contains n) && nodupNums ns

/-- Maximum of a list of naturals (0 when empty). -/
def maxNum (l : List Nat) : Nat := l.foldl Nat.max 0

/-- Minimum of a list of naturals (0 when empty). -/
def minNum : List Nat → Nat
  | [] => 0
  | n :: ns => ns.foldl Nat.min n

/-- Modelled from the spec: the run branch of section 4.2 legality.  Non-Jokers
share one color and, with Jokers assigned as gap fillers, the tiles form a
strictly ascending consecutive run with no duplicate numbers and no wrap past
13: equivalently, the distinct non-Joker numbers lie in [1,13] and fit in some
consecutive window of length `ts.length` inside [1,13], which holds iff
`maxNum + 1 ≤ minNum + ts.length` (given the outer size bound of 13). -/
def isRunShape (ts : List Tile) : Bool :=
  let ns := (nonJokers ts).map (fun t => t.number)
  allSameColor (nonJokers ts) && nodupNums ns &&
  ns.all (fun n => decide (1 ≤ n) && decide (n ≤ 13)) &&
  decide (maxNum ns + 1 ≤ minNum ns + ts.length)

/-- Modelled from the spec: the group branch of section 4.2 legality.
Non-Jokers share one number with pairwise-distinct colors and the total size
is at most 4 (at least 3 comes from the outer size bound). -/
def isGroupShape (ts : List Tile) : Bool :=
  decide (ts.length ≤ 4) && allSameNumber (nonJokers ts) &&
  nodupNums ((nonJokers ts).map (fun t => colorRank t.color))

/-- Modelled from the spec: `isValidSet` of section 4.2 (in the missing
`utils/gameLogic`).  Size 3 to 13, and either the run or the group shape. -/
def isValidSet (ts : List Tile) : Bool :=
  decide (3 ≤ ts.length) && decide (ts.length ≤ 13) &&
  (isRunShape ts || isGroupShape ts)

/-- The number shared by a group's non-Jokers (0 when all tiles are Jokers,
an edge the spec flags as under-specified). -/
def sharedNumber (ts : List Tile) : Nat :=
  match nonJokers ts with
  | [] => 0
  | t :: _ => t.number

/-- The starting number of the consecutive window chosen for a run when
assigning Joker substitutions (spec section 4.2 / note in section 9: any
internally consistent substitution may be picked; this one places the window
as low as the non-Joker tiles and the 13-cap allow). -/
def runLow (ts : List Tile) : Nat :=
  match (nonJokers ts).map (fun t => t.number) with
  | [] => 1
  | n :: ns => Nat.min (ns.foldl Nat.min n) (14 - ts.length)

/-- Modelled from the spec: `calculateSetPoints` of section 4.2 (in the
missing `utils/gameLogic`).  Sum of face numbers with every Joker first
assigned the value it substitutes: for a group each Joker takes the shared
number, for a run the Jokers fill the chosen consecutive window; when no
consistent substitution exists, Jokers count 0. -/
def calculateSetPoints (ts : List Tile) : Nat :=
  if isGroupShape ts then ts.length * sharedNumber ts
  else if isRunShape ts then
    ((List.range ts.length).map (fun k => runLow ts + k)).sum
  else ((nonJokers ts).map (fun t => t.number)).sum

/-- The sort order used on board commits (spec section 4.2: stable ordering by
(number, color) ascending). -/
def tileLE (a b : Tile) : Prop :=
  a.number < b.number ∨ (a.number = b.number ∧ colorRank a.color ≤ colorRank b.color)

instance : DecidableRel tileLE := fun a b => by
  unfold tileLE; exact inferInstance

instance : IsTotal Tile tileLE where
  total a b := by unfold tileLE; omega

instance : IsTrans Tile tileLE where
  trans a b c hab hbc := by unfold tileLE at *; omega

/-- Modelled from the spec: `sortTileSet` of section 4.2 (in the missing
`utils/gameLogic`): stable sort by (number, color) ascending. -/
def sortTileSet (ts : List Tile) : List Tile := List.insertionSort tileLE ts

/-- All ways to split a hand into a chosen subset and the rest, preserving
order in both parts; the enumeration order makes the automated player's greedy
choice (spec section 4.3) deterministic. -/
def splits : List Tile → List (List Tile × List Tile)
  | [] => [([], [])]
  | t :: ts => (splits ts).flatMap (fun p => [(t :: p.1, p.2), (p.1, t :: p.2)])

/-- First candidate of maximal chosen-subset size (spec section 4.3 step 1:
prefer the largest legal subset; ties keep the earlier candidate). -/
def pickBest : List (List Tile × List Tile) → Option (List Tile × List Tile)
  | [] => none
  | c :: cs =>
    match pickBest cs with
    | none => some c
    | some b => if c.1.length < b.1.length then some b else some c

/-- Modelled from the spec: the board-extension search of section 4.3 step 2
(only once melded): scan board sets in order and take the first nonempty hand
subset whose union with the set passes legality; the extended set is replaced,
sorted.  Returns the remaining hand and the new board. -/
def extendBoard (hand : List Tile) : List TileSet → Option (List Tile × List TileSet)
  | [] => none
  | bset :: rest =>
    match (splits hand).find? (fun p => !p.1.isEmpty && isValidSet (bset ++ p.1)) with
    | some p => some (p.2, sortTileSet (bset ++ p.1) :: rest)
    | none => (extendBoard hand rest).map (fun q => (q.1, bset :: q.2))

/-- Result record of the automated player (`{ newHand, newBoard, madeMove }`
in `App.tsx`'s use of `aiPlayTurn`). -/
structure AiMove where
  newHand : List Tile
  newBoard : List TileSet
  madeMove : Bool

/-- Modelled from the spec: `aiPlayTurn` of section 4.3 (in the missing
`utils/gameLogic`).  Greedy and deterministic: commit the largest legal hand
subset of size at least 3 as a new set (requiring score at least 30 when not
yet melded); once melded, if no new set exists, extend the first extendable
board set; otherwise report no move. -/
def aiPlayTurn (hand : List Tile) (board : List TileSet) (melded : Bool) : AiMove :=
  let cands := (splits hand).filter (fun p =>
    decide (3 ≤ p.1.length) && isValidSet p.1 &&
    (melded || decide (30 ≤ calculateSetPoints p.1)))
  match pickBest cands with
  | some p => ⟨p.2, board ++ [sortTileSet p.1], true⟩
  | none =>
    if melded then
      match extendBoard hand board with
      | some q => ⟨q.1, q.2, true⟩
      | none => ⟨hand, board, false⟩
    else ⟨hand, board, false⟩

/-! ## Host/client handlers, embedded from `src/App.tsx` -/

/-- Apostrophe character, kept out of string literals. -/
def apos : String := String.singleton (Char.ofNat 39)

/-- From `App.tsx` (`getTurnMessage`): the turn-status message recomputed
relative to the viewing seat. -/
def getTurnMessage (s : GameState) : String :=
  match s.winner with
  | some w => "👑 Player " ++ toString w ++ " Wins! 👑"
  | none =>
    if s.currentPlayerIndex = s.myPlayerIndex then "Your Turn"
    else "Player " ++ toString s.currentPlayerIndex ++ apos ++ "s Turn"

/-- From `App.tsx` (`isMyTurn`): the guard on every local action button. -/
def isMyTurn (s : GameState) : Bool :=
  decide (s.currentPlayerIndex = s.myPlayerIndex) && s.gameStarted &&
  decide (s.winner = none)

/-- From `App.tsx` (`broadcastState`): keep entries whose position differs
from the given index, literally `filter((_, i) => i !== k)`. -/
def filterOutIdx (l : List (List Tile)) (k : Nat) : List (List Tile) :=
  (l.enum.filter (fun p => p.1 != k)).map (fun p => p.2)

/-- From `App.tsx` (`broadcastState`): the view pushed to the client on
connection `index`: its own hand is the host-stored hand `aiHands[index-1]`,
the other-hands collection is rebuilt with the true host hand first followed
by the remaining stored hands excluding `index-1`, `myPlayerIndex` and the
role are rewritten, and the turn message is recomputed. -/
def broadcastView (s : GameState) (index : Nat) : GameState :=
  { s with
    message := getTurnMessage s
    playerHand := s.aiHands.getD (index - 1) []
    aiHands := s.playerHand :: filterOutIdx s.aiHands (index - 1)
    myPlayerIndex := index
    playerRole := .client }

/-- From `App.tsx` (`handleStartGame`), with the fresh deck passed as a
parameter (the source calls the spec-modelled `createDeck`; evaluating the
JavaScript `pool: deck, playerHand: deck.splice(0, 14), ...` aliasing leaves
the pool holding everything after the four 14-tile deals). -/
def handleStartGame (deck : List Tile) (s : GameState) : GameState :=
  if s.playerRole = .client then s
  else
    let s1 : GameState :=
      { s with
        gameStarted := true
        pool := deck.drop 56
        playerHand := deck.take 14
        aiHands := [(deck.drop 14).take 14, (deck.drop 28).take 14, (deck.drop 42).take 14]
        currentPlayerIndex := 0
        board := []
        hasMeld := [false, false, false, false]
        winner := none }
    { s1 with message := getTurnMessage s1 }

/-- From `App.tsx` (the DRAW button): guarded by the button's `disabled`
attribute (`!isMyTurn || pool empty`) and the handler's own empty-pool check;
pops the pool tail into the hand and advances the seat.  On a client the same
update runs locally and the `ACTION_DRAW` intent is sent to the host. -/
def localDraw (s : GameState) : GameState :=
  if !isMyTurn s || s.pool.isEmpty then s
  else
    match s.pool.getLast? with
    | none => s
    | some drawn =>
      let s1 : GameState :=
        { s with
          pool := s.pool.dropLast
          playerHand := s.playerHand ++ [drawn]
          currentPlayerIndex := (s.currentPlayerIndex + 1) % 4 }
      { s1 with message := getTurnMessage s1 }

/-- From `App.tsx` (the END TURN button): guarded by `disabled={!isMyTurn}`;
advances the seat with no other effect. -/
def localEndTurn (s : GameState) : GameState :=
  if !isMyTurn s then s
  else
    let s1 : GameState := { s with currentPlayerIndex := (s.currentPlayerIndex + 1) % 4 }
    { s1 with message := getTurnMessage s1 }

/-- From `App.tsx` (the PLAY SET button): guarded by
`disabled={!isMyTurn || selectedInHand.size < 3}`; rejects when the selected
tiles are fewer than 3 or fail legality, or when the seat has not melded and
the score is below 30; otherwise appends the sorted set to the board, removes
the tiles from the hand, marks the seat melded, and sets the winner when the
hand empties.  The selection is the set of selected tile ids. -/
def localPlaySet (sel : List Nat) (s : GameState) : GameState :=
  if !isMyTurn s || decide (sel.length < 3) then s
  else
    let selectedTiles := s.playerHand.filter (fun t => sel.contains t.id)
    if decide (selectedTiles.length < 3) || !isValidSet selectedTiles then s
    else if !s.hasMeld.getD s.myPlayerIndex false &&
            decide (calculateSetPoints selectedTiles < 30) then s
    else
      let newHand := s.playerHand.filter (fun t => !sel.contains t.id)
      let ns : GameState :=
        { s with
          board := s.board ++ [sortTileSet selectedTiles]
          playerHand := newHand
          hasMeld := s.hasMeld.set s.myPlayerIndex true }
      let ns := if newHand.isEmpty then { ns with winner := some s.myPlayerIndex } else ns
      { ns with message := getTurnMessage ns }

/-- From `App.tsx` (`handleAddToSet`): extending an existing board set.
Rejected unless it is the local seat's turn with a nonempty selection; rejected
when the seat has not completed its initial meld; rejected when the union of
the target set and the selected tiles fails legality; otherwise the board set
is replaced by the sorted union, the tiles leave the hand, and the winner is
set when the hand empties. -/
def handleAddToSet (setIdx : Nat) (sel : List Nat) (s : GameState) : GameState :=
  if !isMyTurn s || sel.isEmpty then s
  else if !s.hasMeld.getD s.myPlayerIndex false then s
  else
    let tilesToAdd := s.playerHand.filter (fun t => sel.contains t.id)
    let targetSet := s.board.getD setIdx [] ++ tilesToAdd
    if !isValidSet targetSet then s
    else
      let newBoard := s.board.set setIdx (sortTileSet targetSet)
      let newHand := s.playerHand.filter (fun t => !sel.contains t.id)
      let ns : GameState := { s with board := newBoard, playerHand := newHand }
      let ns := if newHand.isEmpty then { ns with winner := some s.myPlayerIndex } else ns
      { ns with message := getTurnMessage ns }

/-- From `App.tsx` (`handleClientMessage`): the host's intent handler, keyed
by the connection index the message arrived on (never by the message's
`fromIndex` field).  Returns the new state and whether `broadcastState` was
invoked.  A non-host instance ignores messages; an intent whose connection
index is not the current seat is dropped silently; `ACTION_MOVE` payloads are
applied verbatim (board, the acting seat's stored hand, and that seat's
`hasMeld` flag are replaced with the payload contents, and the winner is set
when the payload hand is empty).  An `ACTION_MOVE` with a null payload is
modelled as a drop (the JavaScript destructuring would throw, leaving the
state unchanged). -/
def handleClientMessage (connIdx : Nat) (msg : NetworkMessage) (prev : GameState) :
    GameState × Bool :=
  if prev.playerRole ≠ .host then (prev, false)
  else
    match msg.type with
    | .actionDraw =>
      if prev.currentPlayerIndex ≠ connIdx then (prev, false)
      else
        let ns :=
          match prev.pool.getLast? with
          | none => prev
          | some drawn =>
            { prev with
              pool := prev.pool.dropLast
              aiHands := prev.aiHands.set (connIdx - 1)
                (prev.aiHands.getD (connIdx - 1) [] ++ [drawn])
              currentPlayerIndex := (connIdx + 1) % 4 }
        ({ ns with message := getTurnMessage ns }, true)
    | .actionMove =>
      if prev.currentPlayerIndex ≠ connIdx then (prev, false)
      else
        match msg.payload with
        | none => (prev, false)
        | some p =>
          let ns : GameState :=
            { prev with
              board := p.board
              aiHands := prev.aiHands.set (connIdx - 1) p.hand
              hasMeld := prev.hasMeld.set connIdx p.hasMeld }
          let ns := if p.hand.isEmpty then { ns with winner := some connIdx } else ns
          ({ ns with message := getTurnMessage ns }, true)
    | .actionEndTurn =>
      if prev.currentPlayerIndex ≠ connIdx then (prev, false)
      else
        let ns : GameState := { prev with currentPlayerIndex := (connIdx + 1) % 4 }
        ({ ns with message := getTurnMessage ns }, true)
    | _ => ({ prev with message := getTurnMessage prev }, true)

/-- From `App.tsx` (the automated-turn `useEffect`): fires only when the game
is started with no winner, the current seat is a non-host seat not controlled
by a human, and this instance is the single-player or host authority.  Runs
the automated player once; a move commits like a set play (marking the seat
melded) and the turn auto-advances unless the move won; no move draws one tile
(when the pool allows) and always advances.  The second component records
whether the result was broadcast (host role only). -/
def autoTurn (s : GameState) : GameState × Bool :=
  if !s.gameStarted || s.winner ≠ none then (s, false)
  else if s.currentPlayerIndex = 0 then (s, false)
  else if ¬(s.playerRole = .single ∨ s.playerRole = .host) then (s, false)
  else if s.humanPlayers.contains s.currentPlayerIndex then (s, false)
  else
    let aiIdx := s.currentPlayerIndex - 1
    let r := aiPlayTurn (s.aiHands.getD aiIdx []) s.board (s.hasMeld.getD s.currentPlayerIndex false)
    let ns :=
      if r.madeMove then
        let base : GameState :=
          { s with
            board := r.newBoard
            aiHands := s.aiHands.set aiIdx r.newHand
            hasMeld := s.hasMeld.set s.currentPlayerIndex true }
        if r.newHand.isEmpty then { base with winner := some s.currentPlayerIndex }
        else { base with currentPlayerIndex := (s.currentPlayerIndex + 1) % 4 }
      else
        let base :=
          match s.pool.getLast? with
          | none => s
          | some drawn =>
            { s with
              pool := s.pool.dropLast
              aiHands := s.aiHands.set aiIdx (s.aiHands.getD aiIdx [] ++ [drawn]) }
        { base with currentPlayerIndex := (s.currentPlayerIndex + 1) % 4 }
    ({ ns with message := getTurnMessage ns }, decide (s.playerRole = .host))

/-- From `App.tsx` (`joinAsClient`, `conn.onMessage`): a client reacts to a
host message by wholesale-replacing its state with the pushed view when the
type is `UPDATE_STATE`, and otherwise ignores it. -/
def clientOnMessage (mtype : MsgType) (payload : GameState) (s : GameState) : GameState :=
  if mtype = .updateState then payload else s

/-! ## Trace harness over the host's mutation triggers -/

/-- One trigger of a canonical-state mutation on the host: a local button
action, a remote intent arriving on a connection, or an automated-turn tick. -/
inductive HostAction where
  | hDraw
  | hEndTurn
  | hPlaySet (sel : List Nat)
  | hAddToSet (idx : Nat) (sel : List Nat)
  | remote (connIdx : Nat) (msg : NetworkMessage)
  | auto

/-- The state mutation performed by one trigger. -/
def applyAction : HostAction → GameState → GameState
  | .hDraw, s => localDraw s
  | .hEndTurn, s => localEndTurn s
  | .hPlaySet sel, s => localPlaySet sel s
  | .hAddToSet i sel, s => handleAddToSet i sel s
  | .remote k m, s => (handleClientMessage k m s).1
  | .auto, s => (autoTurn s).1

/-- Sequential application of triggers (the host serializes all mutations). -/
def applyTrace (acts : List HostAction) (s : GameState) : GameState :=
  acts.foldl (fun st a => applyAction a st) s

/-- Total number of tiles across a list of tile lists. -/
def tilesIn (ls : List (List Tile)) : Nat := (ls.map List.length).sum

/-- Board tiles + all hands + pool: the quantity the conservation invariant
speaks about. -/
def totalTiles (s : GameState) : Nat :=
  tilesIn s.board + s.playerHand.length + tilesIn s.aiHands + s.pool.length

/-! ## Side conditions under which remote intents are well-formed -/

/-- Structural side condition on one trigger, relative to the state it fires
in: a board-extension click targets a rendered set (the UI only attaches the
handler to existing board sets); a remote intent arrives on a connection the
host actually created (indices 1 to 3: seat 0 is the host itself and
`initHostConnection` rejects a fifth peer); the automated tick fires for a
seat in range; and a remote `ACTION_MOVE` payload conserves tiles (the payload
board and hand together hold exactly as many tiles as the current board plus
the acting seat's stored hand — true of the moves honest clients construct,
and not enforced by the host). -/
def actionOK : HostAction → GameState → Prop
  | .hAddToSet i _, s => i < s.board.length
  | .remote k m, s =>
    1 ≤ k ∧ k ≤ 3 ∧
    (m.type = MsgType.actionMove →
      match m.payload with
      | none => True
      | some p =>
        tilesIn p.board + p.hand.length =
          tilesIn s.board + (s.aiHands.getD (k - 1) []).length)
  | .auto, s => s.currentPlayerIndex ≤ 3
  | _, _ => True

instance (a : HostAction) (s : GameState) : Decidable (actionOK a s) := by
  unfold actionOK
  cases a <;> dsimp only <;> try exact inferInstance
  case remote k m =>
    cases m.payload <;> exact inferInstance

/-- Every trigger of a trace satisfies `actionOK` in the state it fires in. -/
def traceOK : List HostAction → GameState → Prop
  | [], _ => True
  | a :: as, s => actionOK a s ∧ traceOK as (applyAction a s)

instance instDecTraceOK : ∀ (acts : List HostAction) (s : GameState), Decidable (traceOK acts s)
  | [], _ => isTrue trivial
  | a :: as, s => by
    unfold traceOK
    have := instDecTraceOK as (applyAction a s)
    exact inferInstance

/-! ## Draw/EndTurn turn-rotation harness (claim about seat cycling) -/

/-- One legal Draw (`true`) or EndTurn (`false`) performed by whichever seat
currently holds the turn: the host uses its local buttons when the turn is its
own seat 0, and otherwise the action arrives as the matching remote intent on
the current seat's connection. -/
def seatStep (isDraw : Bool) (s : GameState) : GameState :=
  if s.currentPlayerIndex = 0 then
    if isDraw then localDraw s else localEndTurn s
  else
    (handleClientMessage s.currentPlayerIndex
      ⟨if isDraw then .actionDraw else .actionEndTurn, none, s.currentPlayerIndex⟩ s).1

/-- Legality of one Draw/EndTurn step: the deal is in progress with no winner
on the host instance whose own seat is 0, and a draw needs a nonempty pool. -/
def deLegal (isDraw : Bool) (s : GameState) : Prop :=
  s.gameStarted = true ∧ s.winner = none ∧ s.playerRole = Role.host ∧
  s.myPlayerIndex = 0 ∧ (isDraw = true → s.pool ≠ [])

instance (b : Bool) (s : GameState) : Decidable (deLegal b s) := by
  unfold deLegal; exact inferInstance

/-- All steps of a Draw/EndTurn sequence are legal where they fire. -/
def deLegalSeq : List Bool → GameState → Prop
  | [], _ => True
  | b :: bs, s => deLegal b s ∧ deLegalSeq bs (seatStep b s)

instance instDecDeLegalSeq : ∀ (bs : List Bool) (s : GameState), Decidable (deLegalSeq bs s)
  | [], _ => isTrue trivial
  | b :: bs, s => by
    unfold deLegalSeq
    have := instDecDeLegalSeq bs (seatStep b s)
    exact inferInstance

/-- Sequential application of Draw/EndTurn steps. -/
def applyDE (bs : List Bool) (s : GameState) : GameState :=
  bs.foldl (fun st b => seatStep b st) s

/-! ## Concrete fixtures for witnesses and counterexamples -/

/-- A host instance with one connected peer on connection 1, before dealing
(`getInitialGameState` with the role set by `initHostConnection`). -/
def hostInit : GameState :=
  { board := [], playerHand := [], aiHands := [[], [], []], pool := []
    currentPlayerIndex := 0, hasMeld := [false, false, false, false]
    winner := none, message := "", isMultiplayer := true
    playerRole := .host, myPlayerIndex := 0, gameStarted := false
    humanPlayers := [0, 1] }

/-- The host state right after dealing from the base deck. -/
def sStart : GameState := handleStartGame createDeckBase hostInit

/-- The host state after seat 0 ends its turn: seat 1 (the connected client)
holds the turn. -/
def sSeat1 : GameState := localEndTurn sStart

/-- A red 5 used in handcrafted payloads. -/
def tR5 : Tile := { id := 200, number := 5, color := .Red, isJoker := false }

/-- A red 6 used in handcrafted payloads. -/
def tR6 : Tile := { id := 201, number := 6, color := .Red, isJoker := false }

/-! ## Helper lemmas -/

theorem sortTileSet_perm (ts : List Tile) : List.Perm (sortTileSet ts) ts :=
  List.perm_insertionSort tileLE ts

theorem sortTileSet_length (ts : List Tile) : (sortTileSet ts).length = ts.length :=
  (sortTileSet_perm ts).length_eq

theorem sortTileSet_sorted (ts : List Tile) : List.Sorted tileLE (sortTileSet ts) :=
  List.sorted_insertionSort tileLE ts

theorem filter_partition_length (l : List Tile) (p : Tile → Bool) :
    (l.filter p).length + (l.filter (fun t => !p t)).length = l.length := by
  have := List.length_eq_length_filter_add (l := l) p
  omega

theorem tilesIn_append (a b : List (List Tile)) :
    tilesIn (a ++ b) = tilesIn a + tilesIn b := by
  simp [tilesIn]

theorem tilesIn_set (ls : List (List Tile)) (i : Nat) (x : List Tile)
    (h : i < ls.length) :
    tilesIn (ls.set i x) + (ls.getD i []).length = tilesIn ls + x.length := by
  induction ls generalizing i with
  | nil => simp at h
  | cons a as ih =>
    cases i with
    | zero => simp [tilesIn]; omega
    | succ j =>
      have hj : j < as.length := by simpa using h
      have := ih j hj
      simp [tilesIn, List.getD_cons_succ] at *
      omega

theorem splits_length (l : List Tile) :
    ∀ p ∈ splits l, p.1.length + p.2.length = l.length := by
  induction l with
  | nil => intro p hp; simp [splits] at hp; simp [hp]
  | cons t ts ih =>
    intro p hp
    simp only [splits, List.mem_flatMap] at hp
    obtain ⟨q, hq, hmem⟩ := hp
    have := ih q hq
    simp only [List.mem_cons, List.mem_singleton] at hmem
    rcases hmem with h | h | h
    · subst h; simp; omega
    · subst h; simp; omega
    · simp at h

theorem pickBest_mem : ∀ (cands : List (List Tile × List Tile)) (p : List Tile × List Tile),
    pickBest cands = some p → p ∈ cands := by
  intro cands
  induction cands with
  | nil => intro p h; simp [pickBest] at h
  | cons c cs ih =>
    intro p h
    unfold pickBest at h
    cases hrec : pickBest cs with
    | none =>
      rw [hrec] at h
      simp only [Option.some.injEq] at h
      exact h ▸ List.mem_cons_self _ _
    | some b =>
      rw [hrec] at h
      change (if c.1.length < b.1.length then some b else some c) = some p at h
      by_cases hb : c.1.length < b.1.length
      · rw [if_pos hb] at h
        simp only [Option.some.injEq] at h
        exact List.mem_cons_of_mem _ (ih p (h ▸ hrec))
      · rw [if_neg hb] at h
        simp only [Option.some.injEq] at h
        exact h ▸ List.mem_cons_self _ _

theorem extendBoard_conserves (hand : List Tile) :
    ∀ (bs : List TileSet) (r : List Tile) (bs' : List TileSet),
      extendBoard hand bs = some (r, bs') →
      tilesIn bs' + r.length = tilesIn bs + hand.length := by
  intro bs
  induction bs with
  | nil => intro r bs' h; simp [extendBoard] at h
  | cons bset rest ih =>
    intro r bs' h
    unfold extendBoard at h
    cases hfind : (splits hand).find? (fun p => !p.1.isEmpty && isValidSet (bset ++ p.1)) with
    | some p =>
      rw [hfind] at h
      simp only [Option.some.injEq, Prod.mk.injEq] at h
      obtain ⟨hr, hbs⟩ := h
      have hmem : p ∈ splits hand := List.mem_of_find?_eq_some hfind
      have hlen := splits_length hand p hmem
      subst hr; subst hbs
      simp [tilesIn, sortTileSet_length]
      omega
    | none =>
      rw [hfind] at h
      cases hrec : extendBoard hand rest with
      | none => rw [hrec] at h; simp at h
      | some q =>
        rw [hrec] at h
        simp only [Option.map, Option.some.injEq, Prod.mk.injEq] at h
        obtain ⟨hr, hbs⟩ := h
        have := ih q.1 q.2 (by rw [hrec])
        subst hr; subst hbs
        simp [tilesIn] at *
        omega

theorem aiPlayTurn_conserves (hand : List Tile) (board : List TileSet) (melded : Bool) :
    tilesIn (aiPlayTurn hand board melded).newBoard +
      (aiPlayTurn hand board melded).newHand.length =
    tilesIn board + hand.length := by
  unfold aiPlayTurn
  cases hpick : pickBest ((splits hand).filter (fun p =>
      decide (3 ≤ p.1.length) && isValidSet p.1 &&
      (melded || decide (30 ≤ calculateSetPoints p.1)))) with
  | some p =>
    have hmem := pickBest_mem _ _ hpick
    have hmem' : p ∈ splits hand := (List.mem_filter.mp hmem).1
    have hlen := splits_length hand p hmem'
    simp [hpick, tilesIn_append, tilesIn, sortTileSet_length]
    omega
  | none =>
    simp only [hpick]
    cases melded with
    | false => simp
    | true =>
      cases hext : extendBoard hand board with
      | none => simp [hext]
      | some q =>
        have := extendBoard_conserves hand board q.1 q.2 (by rw [hext])
        simp [hext]
        omega


theorem hcm_not_host (k : Nat) (m : NetworkMessage) (s : GameState)
    (hrole : s.playerRole ≠ Role.host) :
    handleClientMessage k m s = (s, false) := by
  unfold handleClientMessage
  rw [if_pos hrole]

theorem hcm_stale (k : Nat) (m : NetworkMessage) (s : GameState)
    (hty : m.type = MsgType.actionDraw ∨ m.type = MsgType.actionMove ∨
      m.type = MsgType.actionEndTurn)
    (hseat : s.currentPlayerIndex ≠ k) :
    handleClientMessage k m s = (s, false) := by
  obtain ⟨ty, pl, fi⟩ := m
  simp only at hty
  unfold handleClientMessage
  by_cases hrole : s.playerRole = Role.host
  · rcases hty with h | h | h <;> subst h <;> simp [hrole, hseat]
  · rw [if_pos hrole]

theorem hcm_move (k fi : Nat) (p : MovePayload) (s : GameState)
    (hrole : s.playerRole = Role.host) (hseat : s.currentPlayerIndex = k) :
    handleClientMessage k ⟨.actionMove, some p, fi⟩ s =
      (let ns : GameState :=
        { s with board := p.board
                 aiHands := s.aiHands.set (k - 1) p.hand
                 hasMeld := s.hasMeld.set k p.hasMeld }
       let ns := if p.hand.isEmpty then { ns with winner := some k } else ns
       ({ ns with message := getTurnMessage ns }, true)) := by
  subst hseat
  unfold handleClientMessage
  simp [hrole]

theorem hcm_draw (k fi : Nat) (s : GameState)
    (hrole : s.playerRole = Role.host) (hseat : s.currentPlayerIndex = k) :
    handleClientMessage k ⟨.actionDraw, none, fi⟩ s =
      (let ns :=
        match s.pool.getLast? with
        | none => s
        | some drawn =>
          { s with pool := s.pool.dropLast
                   aiHands := s.aiHands.set (k - 1) (s.aiHands.getD (k - 1) [] ++ [drawn])
                   currentPlayerIndex := (k + 1) % 4 }
       ({ ns with message := getTurnMessage ns }, true)) := by
  subst hseat
  unfold handleClientMessage
  simp [hrole]

theorem hcm_endTurn (k fi : Nat) (s : GameState)
    (hrole : s.playerRole = Role.host) (hseat : s.currentPlayerIndex = k) :
    handleClientMessage k ⟨.actionEndTurn, none, fi⟩ s =
      (let ns : GameState := { s with currentPlayerIndex := (k + 1) % 4 }
       ({ ns with message := getTurnMessage ns }, true)) := by
  subst hseat
  unfold handleClientMessage
  simp [hrole]

theorem localDraw_totalTiles (s : GameState) : totalTiles (localDraw s) = totalTiles s := by
  by_cases h1 : (!isMyTurn s || s.pool.isEmpty) = true
  · simp [localDraw, h1]
  · cases hlast : s.pool.getLast? with
    | none => simp [localDraw, h1, hlast]
    | some drawn =>
      have hpool : s.pool ≠ [] := by intro h; rw [h] at hlast; simp at hlast
      have hlen : s.pool.length ≥ 1 := List.length_pos.mpr hpool
      simp [localDraw, h1, hlast, totalTiles, List.length_dropLast]
      omega

theorem localEndTurn_totalTiles (s : GameState) :
    totalTiles (localEndTurn s) = totalTiles s := by
  by_cases h1 : (!isMyTurn s) = true
  · simp [localEndTurn, h1]
  · simp [localEndTurn, h1, totalTiles]

theorem localPlaySet_totalTiles (sel : List Nat) (s : GameState) :
    totalTiles (localPlaySet sel s) = totalTiles s := by
  have hpart := filter_partition_length s.playerHand (fun t => sel.contains t.id)
  unfold localPlaySet
  dsimp only
  split
  · rfl
  · split
    · rfl
    · split
      · rfl
      · split <;>
          (simp [totalTiles, tilesIn_append, tilesIn, sortTileSet_length] at hpart ⊢
           omega)

theorem handleAddToSet_totalTiles (setIdx : Nat) (sel : List Nat) (s : GameState)
    (hidx : setIdx < s.board.length) :
    totalTiles (handleAddToSet setIdx sel s) = totalTiles s := by
  have hpart := filter_partition_length s.playerHand (fun t => sel.contains t.id)
  have hset := tilesIn_set s.board setIdx
    (sortTileSet (s.board.getD setIdx [] ++
      s.playerHand.filter (fun t => sel.contains t.id))) hidx
  have hsort := sortTileSet_length (s.board.getD setIdx [] ++
    s.playerHand.filter (fun t => sel.contains t.id))
  rw [List.length_append] at hsort
  unfold handleAddToSet
  dsimp only
  split
  · rfl
  · split
    · rfl
    · split
      · rfl
      · split <;>
          (simp [totalTiles, tilesIn, sortTileSet_length] at hpart hset hsort ⊢
           omega)

theorem hcm_draw2 (k fi : Nat) (pl : Option MovePayload) (s : GameState)
    (hrole : s.playerRole = Role.host) (hseat : s.currentPlayerIndex = k) :
    handleClientMessage k ⟨.actionDraw, pl, fi⟩ s =
      (let ns :=
        match s.pool.getLast? with
        | none => s
        | some drawn =>
          { s with pool := s.pool.dropLast
                   aiHands := s.aiHands.set (k - 1) (s.aiHands.getD (k - 1) [] ++ [drawn])
                   currentPlayerIndex := (k + 1) % 4 }
       ({ ns with message := getTurnMessage ns }, true)) := by
  subst hseat
  unfold handleClientMessage
  simp [hrole]

theorem hcm_endTurn2 (k fi : Nat) (pl : Option MovePayload) (s : GameState)
    (hrole : s.playerRole = Role.host) (hseat : s.currentPlayerIndex = k) :
    handleClientMessage k ⟨.actionEndTurn, pl, fi⟩ s =
      (let ns : GameState := { s with currentPlayerIndex := (k + 1) % 4 }
       ({ ns with message := getTurnMessage ns }, true)) := by
  subst hseat
  unfold handleClientMessage
  simp [hrole]

theorem hcm_move_none (k fi : Nat) (s : GameState)
    (hrole : s.playerRole = Role.host) (hseat : s.currentPlayerIndex = k) :
    handleClientMessage k ⟨.actionMove, none, fi⟩ s = (s, false) := by
  subst hseat
  unfold handleClientMessage
  simp [hrole]

theorem hcm_default (k fi : Nat) (ty : MsgType) (pl : Option MovePayload) (s : GameState)
    (hty : ty = MsgType.updateState ∨ ty = MsgType.startGame) :
    totalTiles (handleClientMessage k ⟨ty, pl, fi⟩ s).1 = totalTiles s := by
  unfold handleClientMessage
  rcases hty with h | h <;> subst h <;> split <;> rfl

theorem handleClientMessage_totalTiles (k : Nat) (m : NetworkMessage) (s : GameState)
    (hwf : s.aiHands.length = 3) (hok : actionOK (.remote k m) s) :
    totalTiles (handleClientMessage k m s).1 = totalTiles s := by
  obtain ⟨hk1, hk3, hmv⟩ := hok
  have hidx : k - 1 < s.aiHands.length := by omega
  obtain ⟨ty, pl, fi⟩ := m
  by_cases hrole : s.playerRole = Role.host
  · by_cases hseat : s.currentPlayerIndex = k
    · cases ty with
      | updateState => exact hcm_default k fi _ pl s (Or.inl rfl)
      | startGame => exact hcm_default k fi _ pl s (Or.inr rfl)
      | actionEndTurn => rw [hcm_endTurn2 k fi pl s hrole hseat]; rfl
      | actionDraw =>
        rw [hcm_draw2 k fi pl s hrole hseat]
        cases hlast : s.pool.getLast? with
        | none => simp [hlast]; rfl
        | some drawn =>
          have hpool : s.pool ≠ [] := by intro h; rw [h] at hlast; simp at hlast
          have hlen : s.pool.length ≥ 1 := List.length_pos.mpr hpool
          have hset := tilesIn_set s.aiHands (k - 1)
            (s.aiHands.getD (k - 1) [] ++ [drawn]) hidx
          simp [hlast, totalTiles, tilesIn, List.length_dropLast] at hset ⊢
          omega
      | actionMove =>
        cases pl with
        | none => rw [hcm_move_none k fi s hrole hseat]
        | some p =>
          have hcons : tilesIn p.board + p.hand.length =
              tilesIn s.board + (s.aiHands.getD (k - 1) []).length := hmv rfl
          have hset := tilesIn_set s.aiHands (k - 1) p.hand hidx
          rw [hcm_move k fi p s hrole hseat]
          dsimp only
          split <;> (simp [totalTiles, tilesIn] at hcons hset ⊢; omega)
    · cases ty with
      | updateState => exact hcm_default k fi _ pl s (Or.inl rfl)
      | startGame => exact hcm_default k fi _ pl s (Or.inr rfl)
      | actionDraw => rw [hcm_stale k _ s (Or.inl rfl) hseat]
      | actionMove => rw [hcm_stale k _ s (Or.inr (Or.inl rfl)) hseat]
      | actionEndTurn => rw [hcm_stale k _ s (Or.inr (Or.inr rfl)) hseat]
  · rw [hcm_not_host k _ s hrole]

theorem autoTurn_totalTiles (s : GameState) (hwf : s.aiHands.length = 3)
    (hseat : s.currentPlayerIndex ≤ 3) :
    totalTiles (autoTurn s).1 = totalTiles s := by
  have hidx : s.currentPlayerIndex - 1 < s.aiHands.length := by omega
  have hai := aiPlayTurn_conserves (s.aiHands.getD (s.currentPlayerIndex - 1) [])
    s.board (s.hasMeld.getD s.currentPlayerIndex false)
  unfold autoTurn
  dsimp only
  split
  · rfl
  split
  · rfl
  split
  · rfl
  split
  · rfl
  split
  · -- madeMove branch
    have hset := tilesIn_set s.aiHands (s.currentPlayerIndex - 1)
      (aiPlayTurn (s.aiHands.getD (s.currentPlayerIndex - 1) []) s.board
        (s.hasMeld.getD s.currentPlayerIndex false)).newHand hidx
    split <;> (simp [totalTiles, tilesIn] at hai hset ⊢; omega)
  · -- no-move branch: draw (if possible) then advance
    cases hlast : s.pool.getLast? with
    | none => simp [hlast]; rfl
    | some drawn =>
      have hpool : s.pool ≠ [] := by intro h; rw [h] at hlast; simp at hlast
      have hlen : s.pool.length ≥ 1 := List.length_pos.mpr hpool
      have hset := tilesIn_set s.aiHands (s.currentPlayerIndex - 1)
        (s.aiHands.getD (s.currentPlayerIndex - 1) [] ++ [drawn]) hidx
      simp [hlast, totalTiles, tilesIn, List.length_dropLast] at hset ⊢
      omega

theorem applyAction_aiHands_length (a : HostAction) (s : GameState) :
    (applyAction a s).aiHands.length = s.aiHands.length := by
  cases a with
  | hDraw =>
    unfold applyAction localDraw
    dsimp only
    split
    · rfl
    · split <;> rfl
  | hEndTurn =>
    unfold applyAction localEndTurn
    dsimp only
    split <;> rfl
  | hPlaySet sel =>
    unfold applyAction localPlaySet
    dsimp only
    split
    · rfl
    split
    · rfl
    split
    · rfl
    split <;> rfl
  | hAddToSet i sel =>
    unfold applyAction handleAddToSet
    dsimp only
    split
    · rfl
    split
    · rfl
    split
    · rfl
    split <;> rfl
  | remote k m =>
    obtain ⟨ty, pl, fi⟩ := m
    show (handleClientMessage k ⟨ty, pl, fi⟩ s).1.aiHands.length = s.aiHands.length
    by_cases hrole : s.playerRole = Role.host
    · by_cases hseat : s.currentPlayerIndex = k
      · cases ty with
        | updateState => unfold handleClientMessage; split <;> rfl
        | startGame => unfold handleClientMessage; split <;> rfl
        | actionEndTurn => rw [hcm_endTurn2 k fi pl s hrole hseat]
        | actionDraw =>
          rw [hcm_draw2 k fi pl s hrole hseat]
          cases hlast : s.pool.getLast? with
          | none => simp [hlast]
          | some drawn => simp [hlast]
        | actionMove =>
          cases pl with
          | none => rw [hcm_move_none k fi s hrole hseat]
          | some p =>
            rw [hcm_move k fi p s hrole hseat]
            dsimp only
            split <;> simp
      · cases ty with
        | updateState => unfold handleClientMessage; split <;> rfl
        | startGame => unfold handleClientMessage; split <;> rfl
        | actionDraw => rw [hcm_stale k _ s (Or.inl rfl) hseat]
        | actionMove => rw [hcm_stale k _ s (Or.inr (Or.inl rfl)) hseat]
        | actionEndTurn => rw [hcm_stale k _ s (Or.inr (Or.inr rfl)) hseat]
    · rw [hcm_not_host k _ s hrole]
  | auto =>
    unfold applyAction autoTurn
    dsimp only
    split
    · rfl
    split
    · rfl
    split
    · rfl
    split
    · rfl
    split
    · split <;> simp
    · cases hlast : s.pool.getLast? with
      | none => simp [hlast]
      | some drawn => simp [hlast]

theorem applyTrace_totalTiles (acts : List HostAction) (s : GameState)
    (hwf : s.aiHands.length = 3) (hok : traceOK acts s) :
    totalTiles (applyTrace acts s) = totalTiles s := by
  induction acts generalizing s with
  | nil => rfl
  | cons a as ih =>
    obtain ⟨hok1, hok2⟩ := hok
    have hwf' : (applyAction a s).aiHands.length = 3 := by
      rw [applyAction_aiHands_length]; exact hwf
    have hstep : totalTiles (applyAction a s) = totalTiles s := by
      cases a with
      | hDraw => exact localDraw_totalTiles s
      | hEndTurn => exact localEndTurn_totalTiles s
      | hPlaySet sel => exact localPlaySet_totalTiles sel s
      | hAddToSet i sel => exact handleAddToSet_totalTiles i sel s hok1
      | remote k m => exact handleClientMessage_totalTiles k m s hwf hok1
      | auto => exact autoTurn_totalTiles s hwf hok1
    calc totalTiles (applyTrace (a :: as) s)
        = totalTiles (applyTrace as (applyAction a s)) := rfl
      _ = totalTiles (applyAction a s) := ih (applyAction a s) hwf' hok2
      _ = totalTiles s := hstep

theorem isEmpty_false_of_ne_nil {α : Type} {l : List α} (h : l ≠ []) :
    l.isEmpty = false := by
  cases l with
  | nil => exact absurd rfl h
  | cons a as => rfl

theorem getD_set_true : ∀ (l : List Bool) (m j : Nat), l.getD j false = true →
    (l.set m true).getD j false = true
  | [], _, _, h => by simp at h
  | b :: bs, 0, 0, _ => rfl
  | b :: bs, 0, j + 1, h => h
  | b :: bs, m + 1, 0, h => h
  | b :: bs, m + 1, j + 1, h => getD_set_true bs m j h

theorem getD_set_ne : ∀ (l : List Bool) (m j : Nat) (a : Bool), j ≠ m →
    (l.set m a).getD j false = l.getD j false
  | [], _, _, _, _ => rfl
  | b :: bs, 0, 0, _, h => absurd rfl h
  | b :: bs, 0, j + 1, _, _ => rfl
  | b :: bs, m + 1, 0, _, _ => rfl
  | b :: bs, m + 1, j + 1, a, h =>
    getD_set_ne bs m j a (fun hc => h (by omega))

theorem handleStartGame_totalTiles (deck : List Tile) (s : GameState)
    (hdeck : deck.length = 106) (hrole : s.playerRole ≠ Role.client) :
    totalTiles (handleStartGame deck s) = 106 := by
  unfold handleStartGame
  rw [if_neg hrole]
  simp [totalTiles, tilesIn]
  omega

theorem handleStartGame_aiHands_length (deck : List Tile) (s : GameState)
    (hrole : s.playerRole ≠ Role.client) :
    (handleStartGame deck s).aiHands.length = 3 := by
  unfold handleStartGame
  rw [if_neg hrole]
  rfl

/-! ## Claim C2 -/

/-- The tile-conserving remote CommitSet payload demanded by the amended
conservation claim is not enforced by the host: this payload empties seat 1's
stored hand without putting the tiles anywhere. -/
def vanishMove : MovePayload := { board := [], hand := [], hasMeld := false }

/-- C2 (counterexample): the conservation claim fails as stated.  Starting
from a fresh deal on the host, seat 0 ends its turn and the connected client
on connection 1 sends an ACTION_MOVE whose payload simply drops its 14-tile
hand; the host applies it verbatim and the total tile count becomes 92, not
106. -/
theorem C2_counterexample :
    totalTiles (applyTrace [HostAction.hEndTurn,
      HostAction.remote 1 ⟨.actionMove, some vanishMove, 1⟩]
      (handleStartGame createDeckBase hostInit)) ≠ 106 := by
  decide

/-- C2 (amended): within one deal, board-tiles + all-hands + pool stays 106
under every sequence of local host actions, automated turns, and remote
intents, provided each remote CommitSet payload itself conserves the tile
count of the board plus the acting seat's stored hand (and each trigger is
structurally well-formed per `actionOK`); the host does not enforce the
payload condition, so a dishonest remote CommitSet can break conservation. -/
theorem C2_conservation (deck : List Tile) (s0 : GameState) (acts : List HostAction)
    (hdeck : deck.length = 106) (hrole : s0.playerRole ≠ Role.client)
    (hok : traceOK acts (handleStartGame deck s0)) :
    totalTiles (applyTrace acts (handleStartGame deck s0)) = 106 := by
  rw [applyTrace_totalTiles acts _ (handleStartGame_aiHands_length deck s0 hrole) hok]
  exact handleStartGame_totalTiles deck s0 hdeck hrole

/-- Witness for C2: a fresh deal followed by one local end-turn keeps 106. -/
theorem C2_conservation_witness :
    totalTiles (applyTrace [HostAction.hEndTurn]
      (handleStartGame createDeckBase hostInit)) = 106 :=
  C2_conservation createDeckBase hostInit [HostAction.hEndTurn]
    (by decide) (by decide) ⟨trivial, trivial⟩

/-! ## Claim C3 -/

/-- C3: a remote Draw, CommitSet, or EndTurn intent arriving on a connection
whose seat differs from currentSeat is dropped silently: the canonical state
is returned unchanged and `broadcastState` is not invoked, so no UPDATE_STATE
is sent to any seat. -/
theorem C3_stale_intents_dropped (k : Nat) (m : NetworkMessage) (s : GameState)
    (hty : m.type = MsgType.actionDraw ∨ m.type = MsgType.actionMove ∨
      m.type = MsgType.actionEndTurn)
    (hseat : s.currentPlayerIndex ≠ k) :
    handleClientMessage k m s = (s, false) :=
  hcm_stale k m s hty hseat

/-- Witness for C3: the spec scenario — seat 2 sends ACTION_DRAW while the
turn belongs to seat 1; the host drops it and broadcasts nothing. -/
theorem C3_witness :
    handleClientMessage 2 ⟨.actionDraw, none, 2⟩ sSeat1 = (sSeat1, false) :=
  C3_stale_intents_dropped 2 ⟨.actionDraw, none, 2⟩ sSeat1 (Or.inl rfl) (by decide)

/-! ## Claim C10 -/

/-- C10: the host's intent handler determines the origin seat solely from the
connection the message arrived on: two incoming messages identical except for
their `fromIndex` field produce identical resulting state and identical
broadcast behavior (the handler never reads `fromIndex`). -/
theorem C10_fromIndex_never_read (k : Nat) (ty : MsgType) (pl : Option MovePayload)
    (f1 f2 : Nat) (s : GameState) :
    handleClientMessage k ⟨ty, pl, f1⟩ s = handleClientMessage k ⟨ty, pl, f2⟩ s := rfl

/-! ## Claim C9 -/

/-- C9: the view the host pushes to connected seat k (k = 1..3) carries as
`playerHand` the host's stored hand for seat k (stored at `aiHands[k-1]`),
rebuilds the other-hands collection with the true host hand first followed by
the remaining seats' hands excluding k in their fixed stored order (dropping
exactly position k-1), and rewrites `myPlayerIndex` to k and the role to
client. -/
theorem C9_view_projection (s : GameState) (k : Nat)
    (hk1 : 1 ≤ k) (hk3 : k ≤ 3) (hwf : s.aiHands.length = 3) :
    (broadcastView s k).playerHand = s.aiHands.getD (k - 1) [] ∧
    (broadcastView s k).aiHands = s.playerHand :: s.aiHands.eraseIdx (k - 1) ∧
    (broadcastView s k).myPlayerIndex = k ∧
    (broadcastView s k).playerRole = Role.client := by
  refine ⟨rfl, ?_, rfl, rfl⟩
  obtain ⟨a, b, c, hl⟩ := List.length_eq_three.mp hwf
  show s.playerHand :: filterOutIdx s.aiHands (k - 1) = _
  rw [hl]
  interval_cases k <;> rfl

/-- Witness for C9: the projection for seat 1 right after the first deal. -/
theorem C9_witness :
    (broadcastView sSeat1 1).playerHand = sSeat1.aiHands.getD 0 [] ∧
    (broadcastView sSeat1 1).aiHands =
      sSeat1.playerHand :: sSeat1.aiHands.eraseIdx 0 ∧
    (broadcastView sSeat1 1).myPlayerIndex = 1 ∧
    (broadcastView sSeat1 1).playerRole = Role.client :=
  C9_view_projection sSeat1 1 (by decide) (by decide) (by decide)

/-! ## Claim C1 -/

/-- An ACTION_MOVE payload whose board contains an illegal two-tile set. -/
def illegalMove : MovePayload :=
  { board := [[tR5, tR6]], hand := [tR5], hasMeld := true }

/-- C1 (counterexample): the claim fails as stated.  With the deal advanced to
seat 1, the client on connection 1 (which equals currentSeat) sends a
CommitSet whose board holds the illegal two-tile set [Red-5, Red-6]; applying
it is not a no-op — the host installs the illegal board verbatim — and a
broadcast to the other seats results. -/
theorem C1_counterexample :
    isValidSet [tR5, tR6] = false ∧
    ((handleClientMessage 1 ⟨.actionMove, some illegalMove, 1⟩ sSeat1).1).board ≠
      sSeat1.board ∧
    (handleClientMessage 1 ⟨.actionMove, some illegalMove, 1⟩ sSeat1).2 = true := by
  decide

/-- C1 (amended): the host applies a remote CommitSet arriving from the
connection equal to currentSeat without any legality validation: even when the
payload's board contains a set that fails the section 4.2 legality check, the
board is installed verbatim and a broadcast is sent; tile legality is enforced
only client-side before the intent is sent. -/
theorem C1_illegal_move_applied (k fi : Nat) (p : MovePayload) (s : GameState)
    (bs : TileSet) (hrole : s.playerRole = Role.host)
    (hseat : s.currentPlayerIndex = k) (_hbs : bs ∈ p.board)
    (_hinv : isValidSet bs = false) :
    ((handleClientMessage k ⟨.actionMove, some p, fi⟩ s).1).board = p.board ∧
    (handleClientMessage k ⟨.actionMove, some p, fi⟩ s).2 = true := by
  rw [hcm_move k fi p s hrole hseat]
  dsimp only
  split <;> exact ⟨rfl, rfl⟩

/-- Witness for C1's amended statement at the counterexample input. -/
theorem C1_witness :
    ((handleClientMessage 1 ⟨.actionMove, some illegalMove, 1⟩ sSeat1).1).board =
      illegalMove.board ∧
    (handleClientMessage 1 ⟨.actionMove, some illegalMove, 1⟩ sSeat1).2 = true :=
  C1_illegal_move_applied 1 1 illegalMove sSeat1 [tR5, tR6]
    (by decide) (by decide) (by simp [illegalMove]) (by decide)

/-! ## Claim C8 -/

/-- The state held by the client on connection 1 right after the host pushed
the view in which seat 1 holds the turn. -/
def sClient : GameState := broadcastView sSeat1 1

/-- C8 (counterexample): the claim fails as stated.  A client in turn does
run the game logic locally: pressing DRAW mutates its local hand immediately
(here from 14 to 15 tiles), before any UPDATE_STATE from the host arrives, so
its state is not an unmodified copy of the last pushed view. -/
theorem C8_counterexample :
    sClient.playerRole = Role.client ∧
    (localDraw sClient).playerHand.length ≠ sClient.playerHand.length := by
  decide

/-- C8 (amended): a client wholesale-replaces its entire state with each
pushed UPDATE_STATE payload (no merging), but when it acts it speculatively
applies the same state update locally that the host would, at the moment it
sends the intent: a client draw in turn with a nonempty pool grows the local
hand by one tile before any UPDATE_STATE arrives. -/
theorem C8_client_behavior (pt : GameState) (s : GameState)
    (_hrole : s.playerRole = Role.client) (hturn : isMyTurn s = true)
    (hpool : s.pool ≠ []) :
    clientOnMessage MsgType.updateState pt s = pt ∧
    (localDraw s).playerHand.length = s.playerHand.length + 1 := by
  refine ⟨rfl, ?_⟩
  have hpe : s.pool.isEmpty = false := isEmpty_false_of_ne_nil hpool
  cases hlast : s.pool.getLast? with
  | none =>
    rw [List.getLast?_eq_none_iff] at hlast
    exact absurd hlast hpool
  | some drawn => simp [localDraw, hturn, hpe, hlast]

/-- Witness for C8's amended statement at the client fixture. -/
theorem C8_witness :
    clientOnMessage MsgType.updateState sSeat1 sClient = sSeat1 ∧
    (localDraw sClient).playerHand.length = sClient.playerHand.length + 1 :=
  C8_client_behavior sSeat1 sClient (by decide) (by decide) (by decide)

theorem seatStep_advances (b : Bool) (s : GameState) (h : deLegal b s) :
    (seatStep b s).currentPlayerIndex = (s.currentPlayerIndex + 1) % 4 := by
  obtain ⟨hg, hw, hrole, hmy, hpool⟩ := h
  unfold seatStep
  by_cases h0 : s.currentPlayerIndex = 0
  · rw [if_pos h0]
    have ht : isMyTurn s = true := by simp [isMyTurn, h0, hmy, hg, hw]
    cases b with
    | true =>
      rw [if_pos rfl]
      have hp : s.pool ≠ [] := hpool rfl
      have hpe : s.pool.isEmpty = false := isEmpty_false_of_ne_nil hp
      cases hlast : s.pool.getLast? with
      | none => rw [List.getLast?_eq_none_iff] at hlast; exact absurd hlast hp
      | some drawn => simp [localDraw, ht, hpe, hlast]
    | false =>
      rw [if_neg (by decide)]
      simp [localEndTurn, ht]
  · rw [if_neg h0]
    cases b with
    | true =>
      rw [if_pos rfl]
      rw [hcm_draw2 s.currentPlayerIndex s.currentPlayerIndex none s hrole rfl]
      have hp : s.pool ≠ [] := hpool rfl
      cases hlast : s.pool.getLast? with
      | none => rw [List.getLast?_eq_none_iff] at hlast; exact absurd hlast hp
      | some drawn => simp [hlast]
    | false =>
      rw [if_neg (by decide)]
      rw [hcm_endTurn2 s.currentPlayerIndex s.currentPlayerIndex none s hrole rfl]

theorem applyDE_currentSeat (bs : List Bool) (s : GameState)
    (hc : s.currentPlayerIndex < 4) (h : deLegalSeq bs s) :
    (applyDE bs s).currentPlayerIndex = (s.currentPlayerIndex + bs.length) % 4 := by
  induction bs generalizing s with
  | nil => simp [applyDE, Nat.mod_eq_of_lt hc]
  | cons b bs ih =>
    obtain ⟨h1, h2⟩ := h
    have hadv := seatStep_advances b s h1
    have hc' : (seatStep b s).currentPlayerIndex < 4 := by rw [hadv]; omega
    calc (applyDE (b :: bs) s).currentPlayerIndex
        = (applyDE bs (seatStep b s)).currentPlayerIndex := rfl
      _ = ((seatStep b s).currentPlayerIndex + bs.length) % 4 := ih (seatStep b s) hc' h2
      _ = (s.currentPlayerIndex + (b :: bs).length) % 4 := by
          rw [hadv]; simp; omega

/-- C7: committing a set (locally, by board extension, or by a remote
CommitSet) never advances currentSeat; every legal Draw or EndTurn performed
by the seat holding the turn advances currentSeat to (currentSeat + 1) mod 4;
consequently, after N consecutive legal Draw/EndTurn actions starting from
seat 0 with no winner, currentSeat equals N mod 4. -/
theorem C7_turn_rotation (sel : List Nat) (i k fi : Nat) (p : MovePayload)
    (s : GameState) (bs : List Bool) :
    (localPlaySet sel s).currentPlayerIndex = s.currentPlayerIndex ∧
    (handleAddToSet i sel s).currentPlayerIndex = s.currentPlayerIndex ∧
    ((handleClientMessage k ⟨.actionMove, some p, fi⟩ s).1).currentPlayerIndex =
      s.currentPlayerIndex ∧
    (∀ b, deLegal b s →
      (seatStep b s).currentPlayerIndex = (s.currentPlayerIndex + 1) % 4) ∧
    (s.currentPlayerIndex = 0 → deLegalSeq bs s →
      (applyDE bs s).currentPlayerIndex = bs.length % 4) := by
  refine ⟨?_, ?_, ?_, fun b hb => seatStep_advances b s hb, fun h0 hseq => ?_⟩
  · unfold localPlaySet
    dsimp only
    split
    · rfl
    split
    · rfl
    split
    · rfl
    split <;> rfl
  · unfold handleAddToSet
    dsimp only
    split
    · rfl
    split
    · rfl
    split
    · rfl
    split <;> rfl
  · by_cases hrole : s.playerRole = Role.host
    · by_cases hseat : s.currentPlayerIndex = k
      · rw [hcm_move k fi p s hrole hseat]
        dsimp only
        split <;> rfl
      · rw [hcm_stale k _ s (Or.inr (Or.inl rfl)) hseat]
    · rw [hcm_not_host k _ s hrole]
  · have := applyDE_currentSeat bs s (by omega) hseq
    rw [this, h0]
    simp

/-- Witness for C7: five consecutive legal EndTurn steps from a fresh deal
land the turn on seat 1 (5 mod 4). -/
theorem C7_witness :
    (applyDE [false, false, false, false, false] sStart).currentPlayerIndex = 1 :=
  (C7_turn_rotation [] 0 0 0 ⟨[], [], false⟩ sStart
    [false, false, false, false, false]).2.2.2.2 (by decide) (by decide)

/-- C6: a CommitSet targeting an existing board set is rejected with no state
change while the acting seat has not completed its initial meld; once melded,
it is accepted iff the union of the existing set and the added tiles passes
legality, in which case the board set is replaced by that union sorted (a
sorted permutation of the union) and the selected tiles leave the hand. -/
theorem C6_extend_existing_set (setIdx : Nat) (sel : List Nat) (s : GameState)
    (hturn : isMyTurn s = true) (hsel : sel ≠ []) :
    (s.hasMeld.getD s.myPlayerIndex false = false →
      handleAddToSet setIdx sel s = s) ∧
    (s.hasMeld.getD s.myPlayerIndex false = true →
      (isValidSet (s.board.getD setIdx [] ++
          s.playerHand.filter (fun t => sel.contains t.id)) = false →
        handleAddToSet setIdx sel s = s) ∧
      (isValidSet (s.board.getD setIdx [] ++
          s.playerHand.filter (fun t => sel.contains t.id)) = true →
        (handleAddToSet setIdx sel s).board =
          s.board.set setIdx (sortTileSet (s.board.getD setIdx [] ++
            s.playerHand.filter (fun t => sel.contains t.id))) ∧
        List.Sorted tileLE (sortTileSet (s.board.getD setIdx [] ++
          s.playerHand.filter (fun t => sel.contains t.id))) ∧
        List.Perm (sortTileSet (s.board.getD setIdx [] ++
          s.playerHand.filter (fun t => sel.contains t.id)))
          (s.board.getD setIdx [] ++
            s.playerHand.filter (fun t => sel.contains t.id)) ∧
        (handleAddToSet setIdx sel s).playerHand =
          s.playerHand.filter (fun t => !sel.contains t.id))) := by
  have hsel' : sel.isEmpty = false := isEmpty_false_of_ne_nil hsel
  have hg1 : ¬((!isMyTurn s || sel.isEmpty) = true) := by simp [hturn, hsel']
  refine ⟨fun hm => ?_, fun hm => ⟨fun hinv => ?_, fun hval => ?_⟩⟩
  · unfold handleAddToSet
    rw [if_neg hg1, if_pos (by simpa using hm)]
  · unfold handleAddToSet
    rw [if_neg hg1, if_neg (by simpa using hm)]
    dsimp only
    rw [if_pos (by simpa using hinv)]
  · refine ⟨?_, sortTileSet_sorted _, sortTileSet_perm _, ?_⟩ <;>
      (unfold handleAddToSet
       rw [if_neg hg1, if_neg (by simpa using hm)]
       dsimp only
       rw [if_neg (by simpa using hval)]
       split <;> rfl)

/-- A red 7 used in handcrafted states. -/
def tR7 : Tile := { id := 202, number := 7, color := .Red, isJoker := false }

/-- A red 8 used in handcrafted states. -/
def tR8 : Tile := { id := 203, number := 8, color := .Red, isJoker := false }

/-- A melded single-player state with the run [Red-5, Red-6, Red-7] on the
board and Red-8 in hand, used to witness board extension. -/
def sExt : GameState :=
  { board := [[tR5, tR6, tR7]], playerHand := [tR8], aiHands := [[], [], []]
    pool := [], currentPlayerIndex := 0, hasMeld := [true, false, false, false]
    winner := none, message := "", isMultiplayer := false, playerRole := .single
    myPlayerIndex := 0, gameStarted := true, humanPlayers := [0] }

/-- Witness for C6: extending the board run with the Red-8 from the hand. -/
theorem C6_witness :
    (handleAddToSet 0 [203] sExt).board =
      sExt.board.set 0 (sortTileSet (sExt.board.getD 0 [] ++
        sExt.playerHand.filter (fun t => [203].contains t.id))) ∧
    (handleAddToSet 0 [203] sExt).playerHand =
      sExt.playerHand.filter (fun t => !([203].contains t.id)) := by
  have h := (C6_extend_existing_set 0 [203] sExt (by decide) (by decide)).2 (by decide)
  exact ⟨(h.2 (by decide)).1, (h.2 (by decide)).2.2.2⟩

/-! ## Claim C5 -/

/-- The host state after seat 1's client reports a move declaring
`hasMeld = true` (the host records it verbatim). -/
def sMelded : GameState :=
  applyTrace [HostAction.hEndTurn,
    HostAction.remote 1 ⟨.actionMove, some { board := [], hand := [tR5], hasMeld := true }, 1⟩]
    sStart

/-- C5 (counterexample): the claim fails as stated.  hasMeld[1] is true in
`sMelded`, yet one further remote CommitSet from the same (current) seat whose
payload declares `hasMeld = false` makes the host store false again: the flag
is not monotonic under remote intents. -/
theorem C5_counterexample :
    sMelded.hasMeld.getD 1 false = true ∧
    ((handleClientMessage 1
        ⟨.actionMove, some { board := [], hand := [tR5], hasMeld := false }, 1⟩
        sMelded).1).hasMeld.getD 1 false = false := by
  decide

/-- C5 (amended): hasMeld is monotonic false-to-true under every local action,
automated turn, and remote Draw/EndTurn, and a local commit flips seat
`myPlayerIndex` from false to true only with a set scoring at least 30; but an
applied remote CommitSet overwrites the acting seat's flag verbatim with the
payload's hasMeld field, which the host does not validate and which may also
clear the flag. -/
theorem C5_hasMeld_amended (s : GameState) (j : Nat) (sel : List Nat)
    (i k fi : Nat) (p : MovePayload) (pl : Option MovePayload) :
    (s.hasMeld.getD j false = true →
      (localDraw s).hasMeld.getD j false = true ∧
      (localEndTurn s).hasMeld.getD j false = true ∧
      (localPlaySet sel s).hasMeld.getD j false = true ∧
      (handleAddToSet i sel s).hasMeld.getD j false = true ∧
      ((autoTurn s).1).hasMeld.getD j false = true ∧
      ((handleClientMessage k ⟨.actionDraw, pl, fi⟩ s).1).hasMeld.getD j false = true ∧
      ((handleClientMessage k ⟨.actionEndTurn, pl, fi⟩ s).1).hasMeld.getD j false = true) ∧
    (s.hasMeld.getD j false = false →
      (localPlaySet sel s).hasMeld.getD j false = true →
      j = s.myPlayerIndex ∧
      30 ≤ calculateSetPoints (s.playerHand.filter (fun t => sel.contains t.id))) ∧
    (s.playerRole = Role.host → s.currentPlayerIndex = k →
      ((handleClientMessage k ⟨.actionMove, some p, fi⟩ s).1).hasMeld =
        s.hasMeld.set k p.hasMeld) := by
  refine ⟨fun hm => ⟨?_, ?_, ?_, ?_, ?_, ?_, ?_⟩, fun hmf h2 => ?_, fun hrole hseat => ?_⟩
  · unfold localDraw
    dsimp only
    split
    · exact hm
    · split <;> exact hm
  · unfold localEndTurn
    split <;> exact hm
  · unfold localPlaySet
    dsimp only
    split
    · exact hm
    split
    · exact hm
    split
    · exact hm
    split <;> exact getD_set_true _ _ _ hm
  · unfold handleAddToSet
    dsimp only
    split
    · exact hm
    split
    · exact hm
    split
    · exact hm
    split <;> exact hm
  · unfold autoTurn
    dsimp only
    split
    · exact hm
    split
    · exact hm
    split
    · exact hm
    split
    · exact hm
    split
    · split <;> exact getD_set_true _ _ _ hm
    · split <;> exact hm
  · by_cases hrole : s.playerRole = Role.host
    · by_cases hseat : s.currentPlayerIndex = k
      · rw [hcm_draw2 k fi pl s hrole hseat]
        dsimp only
        split <;> exact hm
      · rw [hcm_stale k _ s (Or.inl rfl) hseat]; exact hm
    · rw [hcm_not_host k _ s hrole]; exact hm
  · by_cases hrole : s.playerRole = Role.host
    · by_cases hseat : s.currentPlayerIndex = k
      · rw [hcm_endTurn2 k fi pl s hrole hseat]; exact hm
      · rw [hcm_stale k _ s (Or.inr (Or.inr rfl)) hseat]; exact hm
    · rw [hcm_not_host k _ s hrole]; exact hm
  · unfold localPlaySet at h2
    dsimp only at h2
    by_cases hg1 : (!isMyTurn s || decide (sel.length < 3)) = true
    · rw [if_pos hg1] at h2
      rw [hmf] at h2
      cases h2
    · rw [if_neg hg1] at h2
      by_cases hg2 : (decide ((s.playerHand.filter (fun t => sel.contains t.id)).length < 3)
          || !isValidSet (s.playerHand.filter (fun t => sel.contains t.id))) = true
      · rw [if_pos hg2] at h2
        rw [hmf] at h2
        cases h2
      · rw [if_neg hg2] at h2
        by_cases hg3 : (!s.hasMeld.getD s.myPlayerIndex false &&
            decide (calculateSetPoints
              (s.playerHand.filter (fun t => sel.contains t.id)) < 30)) = true
        · rw [if_pos hg3] at h2
          rw [hmf] at h2
          cases h2
        · rw [if_neg hg3] at h2
          by_cases h4 : (s.playerHand.filter (fun t => !sel.contains t.id)).isEmpty = true
          · rw [if_pos h4] at h2
            dsimp only at h2
            by_cases hj : j = s.myPlayerIndex
            · refine ⟨hj, ?_⟩
              have hmy : s.hasMeld.getD s.myPlayerIndex false = false := hj ▸ hmf
              rw [hmy] at hg3
              simp only [Bool.not_false, Bool.true_and, decide_eq_true_eq] at hg3
              omega
            · rw [getD_set_ne _ _ _ _ hj] at h2
              rw [hmf] at h2
              cases h2
          · rw [if_neg h4] at h2
            dsimp only at h2
            by_cases hj : j = s.myPlayerIndex
            · refine ⟨hj, ?_⟩
              have hmy : s.hasMeld.getD s.myPlayerIndex false = false := hj ▸ hmf
              rw [hmy] at hg3
              simp only [Bool.not_false, Bool.true_and, decide_eq_true_eq] at hg3
              omega
            · rw [getD_set_ne _ _ _ _ hj] at h2
              rw [hmf] at h2
              cases h2
  · rw [hcm_move k fi p s hrole hseat]
    dsimp only
    split <;> rfl

/-- Witness for C5's amended statement: monotone preservation of seat 1's
flag under a remote draw at `sMelded`, and the verbatim remote overwrite. -/
theorem C5_witness :
    ((handleClientMessage 1 ⟨.actionDraw, none, 1⟩ sMelded).1).hasMeld.getD 1 false = true ∧
    ((handleClientMessage 1
        ⟨.actionMove, some { board := [], hand := [tR5], hasMeld := false }, 1⟩
        sMelded).1).hasMeld = sMelded.hasMeld.set 1 false :=
  ⟨((C5_hasMeld_amended sMelded 1 [] 0 1 1
      { board := [], hand := [tR5], hasMeld := false } none).1 (by decide)).2.2.2.2.2.1,
   (C5_hasMeld_amended sMelded 1 [] 0 1 1
      { board := [], hand := [tR5], hasMeld := false } none).2.2 (by decide) (by decide)⟩

/-! ## Claim C4 -/

/-- The host state after the connected client on seat 1 commits a move whose
payload empties its hand: the winner is seat 1 and the turn did not advance. -/
def sWon : GameState :=
  applyTrace [HostAction.hEndTurn,
    HostAction.remote 1 ⟨.actionMove, some { board := [], hand := [], hasMeld := true }, 1⟩]
    sStart

/-- C4 (counterexample): the claim fails as stated.  In `sWon` the winner is
already set (seat 1), yet a further remote Draw arriving on connection 1
(which still equals currentSeat) is not a no-op: the host pops the pool and
advances the turn — the intent handler never checks `winner`. -/
theorem C4_counterexample :
    sWon.winner = some 1 ∧
    ((handleClientMessage 1 ⟨.actionDraw, none, 1⟩ sWon).1).pool ≠ sWon.pool := by
  decide

/-- C4 (amended): winner becomes set only when a committed move (local set
play, local board extension, remote CommitSet, or automated move) empties the
acting seat's hand, and currentSeat does not advance at that moment; draws and
end-turns never change winner; once winner is set, every local action and
every automated turn is a no-op — but the host still applies remote intents
arriving on the connection equal to currentSeat, since the remote-intent
handler does not check winner. -/
theorem C4_winner_amended (s : GameState) (w : Nat) (sel : List Nat)
    (i k fi : Nat) (p : MovePayload) (pl : Option MovePayload) :
    (s.winner = some w →
      localDraw s = s ∧ localEndTurn s = s ∧ localPlaySet sel s = s ∧
      handleAddToSet i sel s = s ∧ autoTurn s = (s, false)) ∧
    ((localDraw s).winner = s.winner) ∧
    ((localEndTurn s).winner = s.winner) ∧
    (((handleClientMessage k ⟨.actionDraw, pl, fi⟩ s).1).winner = s.winner) ∧
    (((handleClientMessage k ⟨.actionEndTurn, pl, fi⟩ s).1).winner = s.winner) ∧
    ((localPlaySet sel s).winner ≠ s.winner →
      (localPlaySet sel s).playerHand = [] ∧
      (localPlaySet sel s).winner = some s.myPlayerIndex ∧
      (localPlaySet sel s).currentPlayerIndex = s.currentPlayerIndex) ∧
    ((handleAddToSet i sel s).winner ≠ s.winner →
      (handleAddToSet i sel s).playerHand = [] ∧
      (handleAddToSet i sel s).winner = some s.myPlayerIndex ∧
      (handleAddToSet i sel s).currentPlayerIndex = s.currentPlayerIndex) ∧
    (((handleClientMessage k ⟨.actionMove, some p, fi⟩ s).1).winner ≠ s.winner →
      p.hand = [] ∧
      ((handleClientMessage k ⟨.actionMove, some p, fi⟩ s).1).winner = some k ∧
      ((handleClientMessage k ⟨.actionMove, some p, fi⟩ s).1).currentPlayerIndex =
        s.currentPlayerIndex) ∧
    (((autoTurn s).1).winner ≠ s.winner →
      ((autoTurn s).1).currentPlayerIndex = s.currentPlayerIndex) := by
  refine ⟨fun hw => ?_, ?_, ?_, ?_, ?_, fun h2 => ?_, fun h2 => ?_, fun h2 => ?_,
    fun h2 => ?_⟩
  · have ht : isMyTurn s = false := by simp [isMyTurn, hw]
    refine ⟨?_, ?_, ?_, ?_, ?_⟩
    · unfold localDraw
      rw [if_pos (by simp [ht])]
    · unfold localEndTurn
      rw [if_pos (by simp [ht])]
    · unfold localPlaySet
      rw [if_pos (by simp [ht])]
    · unfold handleAddToSet
      rw [if_pos (by simp [ht])]
    · unfold autoTurn
      rw [if_pos (by simp [hw])]
  · unfold localDraw
    dsimp only
    split
    · rfl
    · split <;> rfl
  · unfold localEndTurn
    split <;> rfl
  · by_cases hrole : s.playerRole = Role.host
    · by_cases hseat : s.currentPlayerIndex = k
      · rw [hcm_draw2 k fi pl s hrole hseat]
        dsimp only
        split <;> rfl
      · rw [hcm_stale k _ s (Or.inl rfl) hseat]
    · rw [hcm_not_host k _ s hrole]
  · by_cases hrole : s.playerRole = Role.host
    · by_cases hseat : s.currentPlayerIndex = k
      · rw [hcm_endTurn2 k fi pl s hrole hseat]
      · rw [hcm_stale k _ s (Or.inr (Or.inr rfl)) hseat]
    · rw [hcm_not_host k _ s hrole]
  · unfold localPlaySet at h2 ⊢
    dsimp only at h2 ⊢
    by_cases hg1 : (!isMyTurn s || decide (sel.length < 3)) = true
    · rw [if_pos hg1] at h2
      exact absurd rfl h2
    · rw [if_neg hg1] at h2 ⊢
      by_cases hg2 : (decide ((s.playerHand.filter (fun t => sel.contains t.id)).length < 3)
          || !isValidSet (s.playerHand.filter (fun t => sel.contains t.id))) = true
      · rw [if_pos hg2] at h2
        exact absurd rfl h2
      · rw [if_neg hg2] at h2 ⊢
        by_cases hg3 : (!s.hasMeld.getD s.myPlayerIndex false &&
            decide (calculateSetPoints
              (s.playerHand.filter (fun t => sel.contains t.id)) < 30)) = true
        · rw [if_pos hg3] at h2
          exact absurd rfl h2
        · rw [if_neg hg3] at h2 ⊢
          by_cases h4 : (s.playerHand.filter (fun t => !sel.contains t.id)).isEmpty = true
          · rw [if_pos h4] at h2 ⊢
            exact ⟨List.isEmpty_iff.mp h4, rfl, rfl⟩
          · rw [if_neg h4] at h2
            exact absurd rfl h2
  · unfold handleAddToSet at h2 ⊢
    dsimp only at h2 ⊢
    by_cases hg1 : (!isMyTurn s || sel.isEmpty) = true
    · rw [if_pos hg1] at h2
      exact absurd rfl h2
    · rw [if_neg hg1] at h2 ⊢
      by_cases hg2 : (!s.hasMeld.getD s.myPlayerIndex false) = true
      · rw [if_pos hg2] at h2
        exact absurd rfl h2
      · rw [if_neg hg2] at h2 ⊢
        by_cases hg3 : (!isValidSet (s.board.getD i [] ++
            s.playerHand.filter (fun t => sel.contains t.id))) = true
        · rw [if_pos hg3] at h2
          exact absurd rfl h2
        · rw [if_neg hg3] at h2 ⊢
          by_cases h4 : (s.playerHand.filter (fun t => !sel.contains t.id)).isEmpty = true
          · rw [if_pos h4] at h2 ⊢
            exact ⟨List.isEmpty_iff.mp h4, rfl, rfl⟩
          · rw [if_neg h4] at h2
            exact absurd rfl h2
  · by_cases hrole : s.playerRole = Role.host
    · by_cases hseat : s.currentPlayerIndex = k
      · rw [hcm_move k fi p s hrole hseat] at h2 ⊢
        dsimp only at h2 ⊢
        by_cases hempty : p.hand.isEmpty = true
        · rw [if_pos hempty] at h2 ⊢
          exact ⟨List.isEmpty_iff.mp hempty, rfl, rfl⟩
        · rw [if_neg hempty] at h2
          exact absurd rfl h2
      · rw [hcm_stale k _ s (Or.inr (Or.inl rfl)) hseat] at h2
        exact absurd rfl h2
    · rw [hcm_not_host k _ s hrole] at h2
      exact absurd rfl h2
  · unfold autoTurn at h2 ⊢
    dsimp only at h2 ⊢
    by_cases hc1 : (!s.gameStarted || decide ¬(s.winner = none)) = true
    · rw [if_pos hc1] at h2
      exact absurd rfl h2
    · rw [if_neg hc1] at h2 ⊢
      by_cases hc2 : s.currentPlayerIndex = 0
      · rw [if_pos hc2] at h2
        exact absurd rfl h2
      · rw [if_neg hc2] at h2 ⊢
        by_cases hc3 : ¬(s.playerRole = Role.single ∨ s.playerRole = Role.host)
        · rw [if_pos hc3] at h2
          exact absurd rfl h2
        · rw [if_neg hc3] at h2 ⊢
          by_cases hc4 : s.humanPlayers.contains s.currentPlayerIndex = true
          · rw [if_pos hc4] at h2
            exact absurd rfl h2
          · rw [if_neg hc4] at h2 ⊢
            by_cases hmv : (aiPlayTurn (s.aiHands.getD (s.currentPlayerIndex - 1) [])
                s.board (s.hasMeld.getD s.currentPlayerIndex false)).madeMove = true
            · rw [if_pos hmv] at h2 ⊢
              by_cases hne : (aiPlayTurn (s.aiHands.getD (s.currentPlayerIndex - 1) [])
                  s.board (s.hasMeld.getD s.currentPlayerIndex false)).newHand.isEmpty = true
              · rw [if_pos hne] at h2 ⊢
              · rw [if_neg hne] at h2
                exact absurd rfl h2
            · rw [if_neg hmv] at h2
              cases hlast : s.pool.getLast? with
              | none =>
                rw [hlast] at h2
                exact absurd rfl h2
              | some drawn =>
                rw [hlast] at h2
                exact absurd rfl h2

/-- Witness for C4's amended statement: with the winner set in `sWon`, a local
draw and the automated turn are no-ops. -/
theorem C4_witness :
    localDraw sWon = sWon ∧ autoTurn sWon = (sWon, false) := by
  have h := C4_winner_amended sWon 1 [] 0 1 1 ⟨[], [], false⟩ none
  exact ⟨(h.1 (by decide)).1, (h.1 (by decide)).2.2.2.2⟩

end Rummikub
